import Mathlib

/-!
Verification of the VeriMantle Resource Arbitration Engine.

This file shallowly embeds the arbiter business logic from
`apps/gateway/src/services/arbiter.service.ts` and proves (or refutes)
the specified properties of its operations.

Modelling conventions:
- Timestamps (`Date`, `Date.now()`) are natural numbers (milliseconds).
  Each operation receives a single `now` parameter standing for the
  `new Date()` calls made during that operation.
- The JavaScript `Map<string, BusinessLock>` is an association list in
  insertion order; `mapSet` updates in place or appends, `mapDelete`
  removes the key, `mapGet` finds the first binding, matching `Map`
  semantics (a `Map` never holds duplicate keys).
- `Array.prototype.sort` is stable (ECMAScript 2019), so the queue sort
  is modelled by a stable insertion sort by descending priority.
- The `ConflictException` thrown by `releaseLock` is modelled with
  `Except`; the throw happens before any mutation in the source, so the
  error branch carries no state change.
-/

namespace Arbiter

/-- Operation kind of a coordination request (`'read' | 'write' | 'exclusive'`). -/
inductive OperationKind where
  | read
  | write
  | exclusive
deriving DecidableEq, Repr

/-- Model of `interface BusinessLock`. -/
structure BusinessLock where
  resource : String
  lockedBy : String
  acquiredAt : Nat
  expiresAt : Nat
  priority : Int
deriving DecidableEq, Repr

/-- Model of `interface CoordinationRequest`. -/
structure CoordinationRequest where
  agentId : String
  resource : String
  operation : OperationKind
  expectedDurationMs : Nat
  priority : Int
deriving DecidableEq, Repr

/-- Model of `interface CoordinationResult`; optional fields are `Option`s. -/
structure CoordinationResult where
  granted : Bool
  lock : Option BusinessLock
  queuePosition : Option Nat
  estimatedWaitMs : Option Nat
deriving DecidableEq, Repr

/-- Model of `interface QueueEntry`. -/
structure QueueEntry where
  agentId : String
  resource : String
  priority : Int
  requestedAt : Nat
deriving DecidableEq, Repr

/-- State of an `ArbiterService` instance: the lock table
(`locks = new Map<string, BusinessLock>()`) and the wait queue
(`queue: QueueEntry[] = []`). -/
structure ArbiterState where
  locks : List (String × BusinessLock)
  queue : List QueueEntry
deriving DecidableEq, Repr

/-- The freshly-constructed service: empty lock table, empty queue. -/
def initState : ArbiterState := { locks := [], queue := [] }

/-- Model of `Map.get`: first binding of the key, if any. -/
def mapGet : List (String × BusinessLock) → String → Option BusinessLock
  | [], _ => none
  | (k, v) :: rest, key => if k = key then some v else mapGet rest key

/-- Model of `Map.set`: replace the existing binding in place, else append. -/
def mapSet : List (String × BusinessLock) → String → BusinessLock → List (String × BusinessLock)
  | [], key, v => [(key, v)]
  | (k, w) :: rest, key, v =>
    if k = key then (key, v) :: rest else (k, w) :: mapSet rest key v

/-- Model of `Map.delete`: remove the bindings of the key. -/
def mapDelete : List (String × BusinessLock) → String → List (String × BusinessLock)
  | [], _ => []
  | (k, v) :: rest, key =>
    if k = key then mapDelete rest key else (k, v) :: mapDelete rest key

/-- Model of `removeFromQueue` (`findIndex` + `splice(index, 1)`): remove the
first entry matching both agent and resource. -/
def removeFromQueue : List QueueEntry → String → String → List QueueEntry
  | [], _, _ => []
  | q :: qs, agentId, resource =>
    if q.agentId = agentId ∧ q.resource = resource then qs
    else q :: removeFromQueue qs agentId resource

/-- Model of `this.queue.find(q => q.resource === resource)` in `releaseLock`. -/
def queueFind : List QueueEntry → String → Option QueueEntry
  | [], _ => none
  | q :: qs, resource => if q.resource = resource then some q else queueFind qs resource

/-- Model of `this.queue.findIndex(q => q.agentId === agentId && q.resource === resource)`,
returning `none` for `-1`. -/
def queueFindIdx : List QueueEntry → String → String → Option Nat
  | [], _, _ => none
  | q :: qs, agentId, resource =>
    if q.agentId = agentId ∧ q.resource = resource then some 0
    else (queueFindIdx qs agentId resource).map (· + 1)

/-- Model of `getQueuePosition`: `index === -1 ? 0 : index + 1` over the whole queue. -/
def getQueuePosition (s : ArbiterState) (agentId resource : String) : Nat :=
  match queueFindIdx s.queue agentId resource with
  | none => 0
  | some i => i + 1

/-- One step of the stable sort: insert before the first strictly
lower-priority entry, i.e. after every entry of priority ≥ its own. -/
def insertByPriority (x : QueueEntry) : List QueueEntry → List QueueEntry
  | [] => [x]
  | y :: ys => if y.priority < x.priority then x :: y :: ys else y :: insertByPriority x ys

/-- Model of `this.queue.sort((a, b) => b.priority - a.priority)`: a stable
sort by descending priority (JavaScript array sort is stable). Processing
the input left to right and inserting after equal-priority entries
reproduces exactly the stable-sort output. -/
def sortQueue (l : List QueueEntry) : List QueueEntry :=
  l.foldl (fun acc x => insertByPriority x acc) []

/-- Model of `addToQueue`: push a new entry and re-sort, unless an entry for
the same (agent, resource) already exists, in which case nothing happens. -/
def addToQueue (now : Nat) (s : ArbiterState) (request : CoordinationRequest) : ArbiterState :=
  if ∃ q ∈ s.queue, q.agentId = request.agentId ∧ q.resource = request.resource then s
  else
    { s with queue := sortQueue (s.queue ++
        [{ agentId := request.agentId, resource := request.resource,
           priority := request.priority, requestedAt := now }]) }

/-- Tail of `acquireLock` after the denial check: build the lock with a 30 s
TTL, store it, and drop the agent's pending queue entry. -/
def grantLock (now : Nat) (s : ArbiterState) (agentId resource : String) (priority : Int) :
    Option BusinessLock × ArbiterState :=
  let lock : BusinessLock :=
    { resource := resource, lockedBy := agentId, acquiredAt := now,
      expiresAt := now + 30000, priority := priority }
  (some lock,
   { locks := mapSet s.locks resource lock,
     queue := removeFromQueue s.queue agentId resource })

/-- Model of `acquireLock`: deny iff a live lock of a different agent with
priority ≥ the requested priority exists; otherwise grant (possibly
preempting). -/
def acquireLock (now : Nat) (s : ArbiterState) (agentId resource : String) (priority : Int) :
    Option BusinessLock × ArbiterState :=
  match mapGet s.locks resource with
  | some existingLock =>
    if now < existingLock.expiresAt ∧ existingLock.lockedBy ≠ agentId ∧
        priority ≤ existingLock.priority then
      (none, s)
    else
      grantLock now s agentId resource priority
  | none => grantLock now s agentId resource priority

/-- Grant path of `requestCoordination` (the trailing `acquireLock` call and
result wrapping). -/
def coordinationGrant (now : Nat) (s : ArbiterState) (request : CoordinationRequest) :
    CoordinationResult × ArbiterState :=
  match acquireLock now s request.agentId request.resource request.priority with
  | (some lock, s') =>
    ({ granted := true, lock := some lock, queuePosition := none, estimatedWaitMs := none }, s')
  | (none, s') =>
    ({ granted := false, lock := none, queuePosition := none, estimatedWaitMs := none }, s')

/-- Model of `requestCoordination`. -/
def requestCoordination (now : Nat) (s : ArbiterState) (request : CoordinationRequest) :
    CoordinationResult × ArbiterState :=
  match mapGet s.locks request.resource with
  | some existingLock =>
    if now < existingLock.expiresAt then
      if existingLock.lockedBy ≠ request.agentId then
        let s1 := addToQueue now s request
        let position := getQueuePosition s1 request.agentId request.resource
        ({ granted := false, lock := none, queuePosition := some position,
           estimatedWaitMs := some (position * 5000) }, s1)
      else
        ({ granted := true, lock := some existingLock, queuePosition := none,
           estimatedWaitMs := none }, s)
    else coordinationGrant now s request
  | none => coordinationGrant now s request

/-- Error type of `releaseLock` (`ConflictException`). -/
inductive ArbiterError where
  | conflict (message : String)
deriving DecidableEq, Repr

/-- Model of `releaseLock`: `{released: false}` when no entry exists,
`ConflictException` when held by someone else, otherwise delete the entry
and promote the first queued entry for the resource (if any). -/
def releaseLock (now : Nat) (s : ArbiterState) (agentId resource : String) :
    Except ArbiterError (Bool × ArbiterState) :=
  match mapGet s.locks resource with
  | none => .ok (false, s)
  | some lock =>
    if lock.lockedBy ≠ agentId then
      .error (.conflict ("Lock on " ++ resource ++ " is owned by " ++ lock.lockedBy ++
        ", not " ++ agentId))
    else
      let s1 : ArbiterState := { locks := mapDelete s.locks resource, queue := s.queue }
      match queueFind s1.queue resource with
      | some nextInQueue =>
        .ok (true, (acquireLock now s1 nextInQueue.agentId nextInQueue.resource
          nextInQueue.priority).2)
      | none => .ok (true, s1)

/-- Model of `getLockStatus`: the stored lock while `expiresAt > now`, else `null`. -/
def getLockStatus (now : Nat) (s : ArbiterState) (resource : String) : Option BusinessLock :=
  match mapGet s.locks resource with
  | some lock => if now < lock.expiresAt then some lock else none
  | none => none

/-- The mutating entry points of the service, for reasoning about
operation sequences. -/
inductive Op where
  | coordinate (request : CoordinationRequest)
  | acquire (agentId resource : String) (priority : Int)
  | release (agentId resource : String)
deriving DecidableEq, Repr

/-- Execute one operation at time `now`; a thrown `ConflictException`
leaves the state unchanged. -/
def step (now : Nat) (s : ArbiterState) : Op → ArbiterState
  | .coordinate request => (requestCoordination now s request).2
  | .acquire agentId resource priority => (acquireLock now s agentId resource priority).2
  | .release agentId resource =>
    match releaseLock now s agentId resource with
    | .ok (_, s') => s'
    | .error _ => s

/-- Run a timed sequence of operations from a state. -/
def runFrom : ArbiterState → List (Nat × Op) → ArbiterState
  | s, [] => s
  | s, (t, o) :: rest => runFrom (step t s o) rest

/-- Run a timed sequence of operations from the initial state. -/
def run (ops : List (Nat × Op)) : ArbiterState := runFrom initState ops

/-! ### Branch characterizations of the operations -/

theorem acquireLock_deny (now : Nat) (s : ArbiterState) (a r : String) (p : Int)
    (l : BusinessLock) (h : mapGet s.locks r = some l) (hlive : now < l.expiresAt)
    (hne : l.lockedBy ≠ a) (hp : p ≤ l.priority) : acquireLock now s a r p = (none, s) := by
  unfold acquireLock
  simp only [h]
  rw [if_pos ⟨hlive, hne, hp⟩]

theorem acquireLock_grant (now : Nat) (s : ArbiterState) (a r : String) (p : Int)
    (h : ∀ l, mapGet s.locks r = some l → now < l.expiresAt → l.lockedBy ≠ a → l.priority < p) :
    acquireLock now s a r p = grantLock now s a r p := by
  unfold acquireLock
  cases hget : mapGet s.locks r with
  | none => rfl
  | some l =>
    simp only [hget]
    rw [if_neg]
    rintro ⟨hlive, hne, hp⟩
    exact absurd hp (not_le.mpr (h l hget hlive hne))

theorem releaseLock_no_lock (now : Nat) (s : ArbiterState) (a r : String)
    (h : mapGet s.locks r = none) : releaseLock now s a r = .ok (false, s) := by
  unfold releaseLock
  rw [h]

theorem releaseLock_conflict (now : Nat) (s : ArbiterState) (a r : String)
    (l : BusinessLock) (h : mapGet s.locks r = some l) (hne : l.lockedBy ≠ a) :
    releaseLock now s a r =
      .error (.conflict ("Lock on " ++ r ++ " is owned by " ++ l.lockedBy ++ ", not " ++ a)) := by
  unfold releaseLock
  simp only [h]
  rw [if_pos hne]

theorem releaseLock_owner_empty (now : Nat) (s : ArbiterState) (a r : String)
    (l : BusinessLock) (h : mapGet s.locks r = some l) (hown : l.lockedBy = a)
    (hq : queueFind s.queue r = none) :
    releaseLock now s a r = .ok (true, { locks := mapDelete s.locks r, queue := s.queue }) := by
  unfold releaseLock
  simp only [h]
  rw [if_neg (by simp [hown])]
  simp only [hq]

theorem releaseLock_owner_promote (now : Nat) (s : ArbiterState) (a r : String)
    (l : BusinessLock) (e : QueueEntry) (h : mapGet s.locks r = some l)
    (hown : l.lockedBy = a) (hq : queueFind s.queue r = some e) :
    releaseLock now s a r =
      .ok (true, (acquireLock now { locks := mapDelete s.locks r, queue := s.queue }
        e.agentId e.resource e.priority).2) := by
  unfold releaseLock
  simp only [h]
  rw [if_neg (by simp [hown])]
  simp only [hq]

theorem requestCoordination_enqueue (now : Nat) (s : ArbiterState)
    (request : CoordinationRequest) (l : BusinessLock)
    (h : mapGet s.locks request.resource = some l) (hlive : now < l.expiresAt)
    (hne : l.lockedBy ≠ request.agentId) :
    requestCoordination now s request =
      ({ granted := false, lock := none,
         queuePosition := some (getQueuePosition (addToQueue now s request)
           request.agentId request.resource),
         estimatedWaitMs := some (getQueuePosition (addToQueue now s request)
           request.agentId request.resource * 5000) },
       addToQueue now s request) := by
  unfold requestCoordination
  simp only [h]
  rw [if_pos hlive, if_pos hne]

theorem requestCoordination_held_self (now : Nat) (s : ArbiterState)
    (request : CoordinationRequest) (l : BusinessLock)
    (h : mapGet s.locks request.resource = some l) (hlive : now < l.expiresAt)
    (hown : l.lockedBy = request.agentId) :
    requestCoordination now s request =
      ({ granted := true, lock := some l, queuePosition := none, estimatedWaitMs := none }, s) := by
  unfold requestCoordination
  simp only [h]
  rw [if_pos hlive, if_neg (by simp [hown])]

theorem requestCoordination_free (now : Nat) (s : ArbiterState)
    (request : CoordinationRequest)
    (h : ∀ l, mapGet s.locks request.resource = some l → l.expiresAt ≤ now) :
    requestCoordination now s request = coordinationGrant now s request := by
  unfold requestCoordination
  cases hget : mapGet s.locks request.resource with
  | none => rfl
  | some l =>
    simp only [hget]
    rw [if_neg (not_lt.mpr (h l hget))]

/-! ### Lock-table key lemmas -/

theorem mem_keys_mapSet (m : List (String × BusinessLock)) (k : String) (v : BusinessLock)
    (x : String) (h : x ∈ (mapSet m k v).map Prod.fst) : x = k ∨ x ∈ m.map Prod.fst := by
  induction m with
  | nil =>
    simp only [mapSet, List.map_cons, List.map_nil, List.mem_singleton] at h
    exact Or.inl h
  | cons p rest ih =>
    obtain ⟨k', w⟩ := p
    simp only [mapSet] at h
    by_cases hk : k' = k
    · rw [if_pos hk] at h
      simp only [List.map_cons, List.mem_cons] at h ⊢
      tauto
    · rw [if_neg hk] at h
      simp only [List.map_cons, List.mem_cons] at h ⊢
      rcases h with h | h
      · tauto
      · rcases ih h with h' | h' <;> tauto

theorem nodup_keys_mapSet (m : List (String × BusinessLock)) (k : String) (v : BusinessLock)
    (h : (m.map Prod.fst).Nodup) : ((mapSet m k v).map Prod.fst).Nodup := by
  induction m with
  | nil => simp [mapSet]
  | cons p rest ih =>
    obtain ⟨k', w⟩ := p
    simp only [List.map_cons, List.nodup_cons] at h
    simp only [mapSet]
    by_cases hk : k' = k
    · rw [if_pos hk]
      simp only [List.map_cons, List.nodup_cons]
      refine ⟨fun hmem => h.1 ?_, h.2⟩
      rwa [hk]
    · rw [if_neg hk]
      simp only [List.map_cons, List.nodup_cons]
      refine ⟨fun hmem => ?_, ih h.2⟩
      rcases mem_keys_mapSet rest k v k' hmem with h' | h'
      · exact hk h'
      · exact h.1 h'

theorem mapDelete_sublist (m : List (String × BusinessLock)) (key : String) :
    (mapDelete m key).Sublist m := by
  induction m with
  | nil => simp [mapDelete]
  | cons p rest ih =>
    obtain ⟨k', w⟩ := p
    by_cases hk : k' = key
    · simpa only [mapDelete, if_pos hk] using ih.cons _
    · simpa only [mapDelete, if_neg hk] using ih.cons₂ _

theorem nodup_keys_mapDelete (m : List (String × BusinessLock)) (key : String)
    (h : (m.map Prod.fst).Nodup) : ((mapDelete m key).map Prod.fst).Nodup :=
  (((mapDelete_sublist m key).map Prod.fst).nodup h)

theorem mapGet_mapDelete_self (m : List (String × BusinessLock)) (key : String) :
    mapGet (mapDelete m key) key = none := by
  induction m with
  | nil => simp [mapDelete, mapGet]
  | cons p rest ih =>
    obtain ⟨k', w⟩ := p
    by_cases hk : k' = key
    · simpa only [mapDelete, if_pos hk] using ih
    · simpa only [mapDelete, if_neg hk, mapGet, if_neg hk] using ih

/-- Keys never repeat in the lock table. -/
def LocksNodup (s : ArbiterState) : Prop := (s.locks.map Prod.fst).Nodup

theorem addToQueue_locks (now : Nat) (s : ArbiterState) (request : CoordinationRequest) :
    (addToQueue now s request).locks = s.locks := by
  unfold addToQueue
  split <;> rfl

theorem locksNodup_grantLock (now : Nat) (s : ArbiterState) (a r : String) (p : Int)
    (h : LocksNodup s) : LocksNodup (grantLock now s a r p).2 :=
  nodup_keys_mapSet s.locks r _ h

theorem locksNodup_acquireLock (now : Nat) (s : ArbiterState) (a r : String) (p : Int)
    (h : LocksNodup s) : LocksNodup (acquireLock now s a r p).2 := by
  unfold acquireLock
  split
  · split
    · exact h
    · exact locksNodup_grantLock now s a r p h
  · exact locksNodup_grantLock now s a r p h

theorem locksNodup_coordinationGrant (now : Nat) (s : ArbiterState) (request : CoordinationRequest)
    (h : LocksNodup s) : LocksNodup (coordinationGrant now s request).2 := by
  unfold coordinationGrant
  have hacq := locksNodup_acquireLock now s request.agentId request.resource request.priority h
  split <;> rename_i heq <;> rw [heq] at hacq <;> exact hacq

theorem locksNodup_requestCoordination (now : Nat) (s : ArbiterState)
    (request : CoordinationRequest) (h : LocksNodup s) :
    LocksNodup (requestCoordination now s request).2 := by
  cases hget : mapGet s.locks request.resource with
  | none =>
    rw [requestCoordination_free now s request (fun l hl => by rw [hget] at hl; cases hl)]
    exact locksNodup_coordinationGrant now s request h
  | some l =>
    by_cases hlive : now < l.expiresAt
    · by_cases hne : l.lockedBy = request.agentId
      · rw [requestCoordination_held_self now s request l hget hlive hne]
        exact h
      · rw [requestCoordination_enqueue now s request l hget hlive hne]
        show LocksNodup (addToQueue now s request)
        unfold LocksNodup
        rw [addToQueue_locks]
        exact h
    · rw [requestCoordination_free now s request
        (fun l' hl' => by rw [hget] at hl'; cases hl'; exact not_lt.mp hlive)]
      exact locksNodup_coordinationGrant now s request h

theorem locksNodup_release (now : Nat) (s : ArbiterState) (a r : String)
    (h : LocksNodup s) : LocksNodup (step now s (.release a r)) := by
  show LocksNodup (match releaseLock now s a r with
    | .ok (_, s') => s'
    | .error _ => s)
  cases hget : mapGet s.locks r with
  | none =>
    rw [releaseLock_no_lock now s a r hget]
    exact h
  | some l =>
    by_cases hown : l.lockedBy = a
    · cases hq : queueFind s.queue r with
      | none =>
        rw [releaseLock_owner_empty now s a r l hget hown hq]
        exact nodup_keys_mapDelete s.locks r h
      | some e =>
        rw [releaseLock_owner_promote now s a r l e hget hown hq]
        exact locksNodup_acquireLock now _ _ _ _ (nodup_keys_mapDelete s.locks r h)
    · rw [releaseLock_conflict now s a r l hget hown]
      exact h

theorem locksNodup_step (now : Nat) (s : ArbiterState) (o : Op)
    (h : LocksNodup s) : LocksNodup (step now s o) := by
  cases o with
  | coordinate request => exact locksNodup_requestCoordination now s request h
  | acquire a r p => exact locksNodup_acquireLock now s a r p h
  | release a r => exact locksNodup_release now s a r h

theorem locksNodup_runFrom (ops : List (Nat × Op)) (s : ArbiterState)
    (h : LocksNodup s) : LocksNodup (runFrom s ops) := by
  induction ops generalizing s with
  | nil => exact h
  | cons p0 rest ih => exact ih _ (locksNodup_step p0.1 s p0.2 h)

/-! ### Wait-queue lemmas -/

/-- Ordering the queue maintains: descending priority, and FIFO among
equal priorities (earlier `requestedAt` first). -/
def entryBefore (a b : QueueEntry) : Prop :=
  b.priority < a.priority ∨ (a.priority = b.priority ∧ a.requestedAt ≤ b.requestedAt)

/-- Weak ordering: descending priority only. -/
def prioGE (a b : QueueEntry) : Prop := b.priority ≤ a.priority

/-- At most one queue entry per (agent, resource) pair. -/
def PairsNodup (l : List QueueEntry) : Prop :=
  (l.map fun q => (q.agentId, q.resource)).Nodup

theorem insertByPriority_perm (x : QueueEntry) (l : List QueueEntry) :
    List.Perm (insertByPriority x l) (x :: l) := by
  induction l with
  | nil => exact List.Perm.refl _
  | cons y ys ih =>
    simp only [insertByPriority]
    by_cases hc : y.priority < x.priority
    · rw [if_pos hc]
    · rw [if_neg hc]
      exact (ih.cons y).trans (List.Perm.swap x y ys)

theorem foldl_insert_perm (l : List QueueEntry) (acc : List QueueEntry) :
    List.Perm (List.foldl (fun acc x => insertByPriority x acc) acc l) (acc ++ l) := by
  induction l generalizing acc with
  | nil => simp
  | cons x xs ih =>
    rw [List.foldl_cons]
    refine (ih (insertByPriority x acc)).trans ?_
    refine (((insertByPriority_perm x acc).append_right xs).trans ?_)
    exact List.perm_middle.symm

theorem sortQueue_perm (l : List QueueEntry) : List.Perm (sortQueue l) l :=
  foldl_insert_perm l []

theorem insertByPriority_append (x : QueueEntry) (l : List QueueEntry)
    (h : ∀ y ∈ l, ¬ y.priority < x.priority) : insertByPriority x l = l ++ [x] := by
  induction l with
  | nil => rfl
  | cons y ys ih =>
    simp only [insertByPriority]
    rw [if_neg (h y (List.mem_cons_self y ys))]
    rw [ih (fun z hz => h z (List.mem_cons_of_mem y hz))]
    rfl

theorem foldl_insert_of_sorted (l : List QueueEntry) : ∀ acc : List QueueEntry,
    List.Pairwise prioGE (acc ++ l) →
    List.foldl (fun acc x => insertByPriority x acc) acc l = acc ++ l := by
  induction l with
  | nil => intro acc _; simp
  | cons x xs ih =>
    intro acc h
    have hx : ∀ y ∈ acc, ¬ y.priority < x.priority := by
      intro y hy
      exact not_lt.mpr ((List.pairwise_append.mp h).2.2 y hy x (List.mem_cons_self x xs))
    rw [List.foldl_cons, insertByPriority_append x acc hx]
    rw [List.append_cons acc x xs] at h
    rw [ih (acc ++ [x]) h]
    simp

theorem sortQueue_of_sorted (l : List QueueEntry) (h : List.Pairwise prioGE l) :
    sortQueue l = l :=
  foldl_insert_of_sorted l [] (by simpa using h)

theorem sortQueue_append_single (l : List QueueEntry) (x : QueueEntry) :
    sortQueue (l ++ [x]) = insertByPriority x (sortQueue l) := by
  unfold sortQueue
  rw [List.foldl_append]
  rfl

theorem addToQueue_queue_of_sorted (now : Nat) (s : ArbiterState) (request : CoordinationRequest)
    (hs : List.Pairwise prioGE s.queue)
    (hnew : ¬ ∃ q ∈ s.queue, q.agentId = request.agentId ∧ q.resource = request.resource) :
    (addToQueue now s request).queue =
      insertByPriority
        (QueueEntry.mk request.agentId request.resource request.priority now) s.queue := by
  unfold addToQueue
  rw [if_neg hnew]
  show sortQueue (s.queue ++ [QueueEntry.mk request.agentId request.resource request.priority now]) = _
  rw [sortQueue_append_single, sortQueue_of_sorted s.queue hs]

theorem addToQueue_queue_of_mem (now : Nat) (s : ArbiterState) (request : CoordinationRequest)
    (hold : ∃ q ∈ s.queue, q.agentId = request.agentId ∧ q.resource = request.resource) :
    addToQueue now s request = s := by
  unfold addToQueue
  rw [if_pos hold]

theorem removeFromQueue_sublist (l : List QueueEntry) (a r : String) :
    (removeFromQueue l a r).Sublist l := by
  induction l with
  | nil => simp [removeFromQueue]
  | cons q qs ih =>
    simp only [removeFromQueue]
    by_cases hc : q.agentId = a ∧ q.resource = r
    · rw [if_pos hc]
      exact List.sublist_cons_self q qs
    · rw [if_neg hc]
      exact ih.cons₂ q

theorem entryBefore_insert (x : QueueEntry) (l : List QueueEntry)
    (hord : List.Pairwise entryBefore l)
    (htime : ∀ y ∈ l, y.requestedAt ≤ x.requestedAt) :
    List.Pairwise entryBefore (insertByPriority x l) := by
  induction l with
  | nil => simp [insertByPriority]
  | cons y ys ih =>
    rcases List.pairwise_cons.mp hord with ⟨hy, hys⟩
    simp only [insertByPriority]
    by_cases hc : y.priority < x.priority
    · rw [if_pos hc]
      refine List.Pairwise.cons ?_ hord
      intro z hz
      rcases List.mem_cons.mp hz with rfl | hz'
      · exact Or.inl hc
      · rcases hy z hz' with h1 | h2
        · exact Or.inl (h1.trans hc)
        · exact Or.inl (h2.1 ▸ hc)
    · rw [if_neg hc]
      refine List.Pairwise.cons ?_ (ih hys (fun z hz => htime z (List.mem_cons_of_mem y hz)))
      intro z hz
      have hz' : z = x ∨ z ∈ ys := by
        simpa using (insertByPriority_perm x ys).mem_iff.mp hz
      rcases hz' with rfl | hz'
      · rcases lt_or_eq_of_le (not_lt.mp hc) with h1 | h2
        · exact Or.inl h1
        · exact Or.inr ⟨h2.symm, htime y (List.mem_cons_self y ys)⟩
      · exact hy z hz'

theorem timeBound_insert (x : QueueEntry) (l : List QueueEntry) (t : Nat)
    (hx : x.requestedAt ≤ t) (hl : ∀ y ∈ l, y.requestedAt ≤ t) :
    ∀ y ∈ insertByPriority x l, y.requestedAt ≤ t := by
  intro y hy
  have : y = x ∨ y ∈ l := by simpa using (insertByPriority_perm x l).mem_iff.mp hy
  rcases this with rfl | hy'
  · exact hx
  · exact hl y hy'

theorem pairsNodup_insert (x : QueueEntry) (l : List QueueEntry)
    (hnd : PairsNodup l)
    (hnew : ¬ ∃ q ∈ l, q.agentId = x.agentId ∧ q.resource = x.resource) :
    PairsNodup (insertByPriority x l) := by
  unfold PairsNodup
  rw [List.Perm.nodup_iff ((insertByPriority_perm x l).map _)]
  simp only [List.map_cons, List.nodup_cons]
  refine ⟨fun habs => hnew ?_, hnd⟩
  rcases List.mem_map.mp habs with ⟨q, hq, hpair⟩
  obtain ⟨h1, h2⟩ := Prod.mk.inj hpair
  exact ⟨q, hq, h1, h2⟩

theorem pairsNodup_sublist {l₁ l₂ : List QueueEntry} (h : l₁.Sublist l₂)
    (hnd : PairsNodup l₂) : PairsNodup l₁ :=
  List.Nodup.sublist (h.map _) hnd

theorem queueFind_first {R : QueueEntry → QueueEntry → Prop} (l : List QueueEntry) (r : String)
    (hord : List.Pairwise R l) (e : QueueEntry) (hf : queueFind l r = some e) :
    e ∈ l ∧ e.resource = r ∧ ∀ x ∈ l, x.resource = r → x = e ∨ R e x := by
  induction l with
  | nil => cases hf
  | cons q qs ih =>
    rcases List.pairwise_cons.mp hord with ⟨hq, hqs⟩
    simp only [queueFind] at hf
    by_cases hc : q.resource = r
    · rw [if_pos hc] at hf
      cases hf
      refine ⟨List.mem_cons_self _ _, hc, ?_⟩
      intro x hx _
      rcases List.mem_cons.mp hx with rfl | hx'
      · exact Or.inl rfl
      · exact Or.inr (hq x hx')
    · rw [if_neg hc] at hf
      obtain ⟨hmem, hres, hall⟩ := ih hqs hf
      refine ⟨List.mem_cons_of_mem q hmem, hres, ?_⟩
      intro x hx hxr
      rcases List.mem_cons.mp hx with rfl | hx'
      · exact absurd hxr hc
      · exact hall x hx' hxr

theorem not_mem_removeFromQueue (l : List QueueEntry) (a r : String) (e : QueueEntry)
    (hnd : PairsNodup l) (hmem : e ∈ l) (ha : e.agentId = a) (hr : e.resource = r) :
    e ∉ removeFromQueue l a r := by
  induction l with
  | nil => cases hmem
  | cons q qs ih =>
    simp only [PairsNodup, List.map_cons, List.nodup_cons] at hnd
    simp only [removeFromQueue]
    by_cases hc : q.agentId = a ∧ q.resource = r
    · rw [if_pos hc]
      intro habs
      apply hnd.1
      have : (q.agentId, q.resource) = (e.agentId, e.resource) := by
        rw [hc.1, hc.2, ha, hr]
      rw [this]
      exact List.mem_map_of_mem _ habs
    · rw [if_neg hc]
      rcases List.mem_cons.mp hmem with rfl | hmem'
      · exact absurd ⟨ha, hr⟩ hc
      · intro habs
        rcases List.mem_cons.mp habs with rfl | habs'
        · exact hc ⟨ha, hr⟩
        · exact ih hnd.2 hmem' habs'

theorem assoc_nodup_unique {l : List (String × BusinessLock)}
    (h : (l.map Prod.fst).Nodup) {p q : String × BusinessLock}
    (hp : p ∈ l) (hq : q ∈ l) (hfst : p.1 = q.1) : p = q := by
  induction l with
  | nil => cases hp
  | cons x rest ih =>
    simp only [List.map_cons, List.nodup_cons] at h
    rcases List.mem_cons.mp hp with hp' | hp' <;>
      rcases List.mem_cons.mp hq with hq' | hq'
    · rw [hp', hq']
    · exfalso
      apply h.1
      rw [← hp', hfst]
      exact List.mem_map_of_mem Prod.fst hq'
    · exfalso
      apply h.1
      rw [← hq', ← hfst]
      exact List.mem_map_of_mem Prod.fst hp'
    · exact ih h.2 hp' hq'

/-! ### Queue invariants along operation sequences -/

theorem pairwise_prioGE_of_entryBefore {l : List QueueEntry}
    (h : List.Pairwise entryBefore l) : List.Pairwise prioGE l := by
  refine h.imp ?_
  intro a b hab
  rcases hab with h1 | h2
  · exact le_of_lt h1
  · exact le_of_eq h2.1.symm

/-- Queue well-formedness at time `t`: priority-then-FIFO ordered, all
timestamps at most `t`, and no duplicate (agent, resource) pair. -/
def QInvList (t : Nat) (l : List QueueEntry) : Prop :=
  List.Pairwise entryBefore l ∧ (∀ q ∈ l, q.requestedAt ≤ t) ∧ PairsNodup l

theorem qInvList_mono {t u : Nat} {l : List QueueEntry} (htu : t ≤ u)
    (h : QInvList t l) : QInvList u l :=
  ⟨h.1, fun q hq => (h.2.1 q hq).trans htu, h.2.2⟩

theorem qInvList_remove (l : List QueueEntry) (a r : String) (t : Nat)
    (h : QInvList t l) : QInvList t (removeFromQueue l a r) := by
  have hsub := removeFromQueue_sublist l a r
  exact ⟨h.1.sublist hsub, fun q hq => h.2.1 q (hsub.subset hq),
    pairsNodup_sublist hsub h.2.2⟩

theorem qInvList_insert (l : List QueueEntry) (e : QueueEntry) (t : Nat)
    (h : QInvList t l) (he : t ≤ e.requestedAt)
    (hnew : ¬ ∃ q ∈ l, q.agentId = e.agentId ∧ q.resource = e.resource) :
    QInvList e.requestedAt (insertByPriority e l) := by
  refine ⟨entryBefore_insert e l h.1 (fun y hy => (h.2.1 y hy).trans he), ?_, ?_⟩
  · exact timeBound_insert e l e.requestedAt le_rfl (fun y hy => (h.2.1 y hy).trans he)
  · exact pairsNodup_insert e l h.2.2 hnew

theorem coordinationGrant_state (now : Nat) (s : ArbiterState) (request : CoordinationRequest) :
    (coordinationGrant now s request).2 =
      (acquireLock now s request.agentId request.resource request.priority).2 := by
  unfold coordinationGrant
  split <;> rename_i heq <;> rw [heq]

theorem acquireLock_state_queue (now : Nat) (s : ArbiterState) (a r : String) (p : Int) :
    (acquireLock now s a r p).2.queue = s.queue ∨
    (acquireLock now s a r p).2.queue = removeFromQueue s.queue a r := by
  unfold acquireLock grantLock
  split
  · split
    · exact Or.inl rfl
    · exact Or.inr rfl
  · exact Or.inr rfl

theorem qInv_acquire (now t : Nat) (s : ArbiterState) (a r : String) (p : Int)
    (ht : t ≤ now) (h : QInvList t s.queue) :
    QInvList now (acquireLock now s a r p).2.queue := by
  rcases acquireLock_state_queue now s a r p with hq | hq <;> rw [hq]
  · exact qInvList_mono ht h
  · exact qInvList_mono ht (qInvList_remove s.queue a r t h)

theorem qInv_coordinate (now t : Nat) (s : ArbiterState) (request : CoordinationRequest)
    (ht : t ≤ now) (h : QInvList t s.queue) :
    QInvList now (requestCoordination now s request).2.queue := by
  cases hget : mapGet s.locks request.resource with
  | none =>
    rw [requestCoordination_free now s request (fun l hl => by rw [hget] at hl; cases hl)]
    rw [coordinationGrant_state]
    exact qInv_acquire now t s request.agentId request.resource request.priority ht h
  | some l =>
    by_cases hlive : now < l.expiresAt
    · by_cases hown : l.lockedBy = request.agentId
      · rw [requestCoordination_held_self now s request l hget hlive hown]
        exact qInvList_mono ht h
      · rw [requestCoordination_enqueue now s request l hget hlive hown]
        by_cases hex : ∃ q ∈ s.queue,
            q.agentId = request.agentId ∧ q.resource = request.resource
        · rw [addToQueue_queue_of_mem now s request hex]
          exact qInvList_mono ht h
        · rw [addToQueue_queue_of_sorted now s request
            (pairwise_prioGE_of_entryBefore h.1) hex]
          exact qInvList_insert s.queue
            (QueueEntry.mk request.agentId request.resource request.priority now) t h ht hex
    · rw [requestCoordination_free now s request
        (fun l' hl' => by rw [hget] at hl'; cases hl'; exact not_lt.mp hlive)]
      rw [coordinationGrant_state]
      exact qInv_acquire now t s request.agentId request.resource request.priority ht h

theorem qInv_release (now t : Nat) (s : ArbiterState) (a r : String)
    (ht : t ≤ now) (h : QInvList t s.queue) :
    QInvList now (step now s (.release a r)).queue := by
  show QInvList now (match releaseLock now s a r with
    | .ok (_, s') => s'
    | .error _ => s).queue
  cases hget : mapGet s.locks r with
  | none =>
    rw [releaseLock_no_lock now s a r hget]
    exact qInvList_mono ht h
  | some l =>
    by_cases hown : l.lockedBy = a
    · cases hq : queueFind s.queue r with
      | none =>
        rw [releaseLock_owner_empty now s a r l hget hown hq]
        exact qInvList_mono ht h
      | some e =>
        rw [releaseLock_owner_promote now s a r l e hget hown hq]
        have h1 : QInvList t (ArbiterState.mk (mapDelete s.locks r) s.queue).queue := h
        exact qInv_acquire now t _ e.agentId e.resource e.priority ht h1
    · rw [releaseLock_conflict now s a r l hget hown]
      exact qInvList_mono ht h

theorem qInv_step (now t : Nat) (s : ArbiterState) (o : Op)
    (ht : t ≤ now) (h : QInvList t s.queue) : QInvList now (step now s o).queue := by
  cases o with
  | coordinate request => exact qInv_coordinate now t s request ht h
  | acquire a r p => exact qInv_acquire now t s a r p ht h
  | release a r => exact qInv_release now t s a r ht h

/-- The times of an operation sequence are nondecreasing starting from `t`
(the clock only moves forward). -/
def Chrono : Nat → List (Nat × Op) → Prop
  | _, [] => True
  | t, p :: rest => t ≤ p.1 ∧ Chrono p.1 rest

theorem qInv_runFrom (ops : List (Nat × Op)) : ∀ (t : Nat) (s : ArbiterState),
    Chrono t ops → QInvList t s.queue → ∃ u, QInvList u (runFrom s ops).queue := by
  induction ops with
  | nil => exact fun t s _ h => ⟨t, h⟩
  | cons p rest ih =>
    intro t s hc h
    exact ih p.1 (step p.1 s p.2) hc.2 (qInv_step p.1 t s p.2 hc.1 h)

theorem qInv_run (ops : List (Nat × Op)) (hc : Chrono 0 ops) :
    ∃ u, QInvList u (run ops).queue :=
  qInv_runFrom ops 0 initState hc ⟨List.Pairwise.nil, fun _ hq => absurd hq (List.not_mem_nil _), List.nodup_nil⟩

/-! ### Pair-uniqueness of the queue for arbitrary (untimed) sequences -/

theorem pairsNodup_addToQueue (now : Nat) (s : ArbiterState) (request : CoordinationRequest)
    (h : PairsNodup s.queue) : PairsNodup (addToQueue now s request).queue := by
  unfold addToQueue
  by_cases hex : ∃ q ∈ s.queue, q.agentId = request.agentId ∧ q.resource = request.resource
  · rw [if_pos hex]
    exact h
  · rw [if_neg hex]
    show PairsNodup (sortQueue (s.queue ++ [QueueEntry.mk request.agentId request.resource
      request.priority now]))
    unfold PairsNodup
    rw [List.Perm.nodup_iff ((sortQueue_perm _).map _)]
    rw [List.map_append]
    rw [List.nodup_append]
    refine ⟨h, List.nodup_singleton _, ?_⟩
    intro x hx hx'
    simp only [List.map_cons, List.map_nil, List.mem_singleton] at hx'
    rcases List.mem_map.mp hx with ⟨q, hq, hpair⟩
    apply hex
    obtain ⟨h1, h2⟩ := Prod.mk.inj (hpair.trans hx')
    exact ⟨q, hq, h1, h2⟩

theorem pairsNodup_acquire (now : Nat) (s : ArbiterState) (a r : String) (p : Int)
    (h : PairsNodup s.queue) : PairsNodup (acquireLock now s a r p).2.queue := by
  rcases acquireLock_state_queue now s a r p with hq | hq <;> rw [hq]
  · exact h
  · exact pairsNodup_sublist (removeFromQueue_sublist s.queue a r) h

theorem pairsNodup_step (now : Nat) (s : ArbiterState) (o : Op)
    (h : PairsNodup s.queue) : PairsNodup (step now s o).queue := by
  cases o with
  | coordinate request =>
    cases hget : mapGet s.locks request.resource with
    | none =>
      rw [show step now s (.coordinate request) = (requestCoordination now s request).2 from rfl]
      rw [requestCoordination_free now s request (fun l hl => by rw [hget] at hl; cases hl)]
      rw [coordinationGrant_state]
      exact pairsNodup_acquire now s request.agentId request.resource request.priority h
    | some l =>
      by_cases hlive : now < l.expiresAt
      · by_cases hown : l.lockedBy = request.agentId
        · rw [show step now s (.coordinate request) = (requestCoordination now s request).2 from rfl]
          rw [requestCoordination_held_self now s request l hget hlive hown]
          exact h
        · rw [show step now s (.coordinate request) = (requestCoordination now s request).2 from rfl]
          rw [requestCoordination_enqueue now s request l hget hlive hown]
          exact pairsNodup_addToQueue now s request h
      · rw [show step now s (.coordinate request) = (requestCoordination now s request).2 from rfl]
        rw [requestCoordination_free now s request
          (fun l' hl' => by rw [hget] at hl'; cases hl'; exact not_lt.mp hlive)]
        rw [coordinationGrant_state]
        exact pairsNodup_acquire now s request.agentId request.resource request.priority h
  | acquire a r p => exact pairsNodup_acquire now s a r p h
  | release a r =>
    show PairsNodup (match releaseLock now s a r with
      | .ok (_, s') => s'
      | .error _ => s).queue
    cases hget : mapGet s.locks r with
    | none =>
      rw [releaseLock_no_lock now s a r hget]
      exact h
    | some l =>
      by_cases hown : l.lockedBy = a
      · cases hq : queueFind s.queue r with
        | none =>
          rw [releaseLock_owner_empty now s a r l hget hown hq]
          exact h
        | some e =>
          rw [releaseLock_owner_promote now s a r l e hget hown hq]
          exact pairsNodup_acquire now _ e.agentId e.resource e.priority h
      · rw [releaseLock_conflict now s a r l hget hown]
        exact h

theorem pairsNodup_runFrom (ops : List (Nat × Op)) (s : ArbiterState)
    (h : PairsNodup s.queue) : PairsNodup (runFrom s ops).queue := by
  induction ops generalizing s with
  | nil => exact h
  | cons p0 rest ih => exact ih _ (pairsNodup_step p0.1 s p0.2 h)

/-! ### Status and position helper lemmas -/

theorem getLockStatus_eq_some (now : Nat) (s : ArbiterState) (r : String) (l : BusinessLock) :
    getLockStatus now s r = some l ↔ mapGet s.locks r = some l ∧ now < l.expiresAt := by
  cases hget : mapGet s.locks r with
  | none => simp [getLockStatus, hget]
  | some l' =>
    unfold getLockStatus
    simp only [hget]
    by_cases hl : now < l'.expiresAt
    · rw [if_pos hl]
      constructor
      · intro h
        cases h
        exact ⟨rfl, hl⟩
      · rintro ⟨h1, _⟩
        cases h1
        rfl
    · rw [if_neg hl]
      constructor
      · intro h
        cases h
      · rintro ⟨h1, h2⟩
        cases h1
        exact absurd h2 hl

theorem getLockStatus_eq_none (now : Nat) (s : ArbiterState) (r : String) :
    getLockStatus now s r = none ↔ ∀ l, mapGet s.locks r = some l → l.expiresAt ≤ now := by
  cases hget : mapGet s.locks r with
  | none =>
    simp only [getLockStatus, hget]
    exact iff_of_true trivial (fun l hl => by cases hl)
  | some l' =>
    unfold getLockStatus
    simp only [hget]
    by_cases hl : now < l'.expiresAt
    · rw [if_pos hl]
      constructor
      · intro h
        cases h
      · intro h
        exact absurd hl (not_lt.mpr (h l' rfl))
    · rw [if_neg hl]
      refine iff_of_true rfl (fun l hl' => ?_)
      cases hl'
      exact not_lt.mp hl

theorem mapGet_mapSet_self (m : List (String × BusinessLock)) (k : String) (v : BusinessLock) :
    mapGet (mapSet m k v) k = some v := by
  induction m with
  | nil => simp [mapSet, mapGet]
  | cons p rest ih =>
    obtain ⟨k', w⟩ := p
    simp only [mapSet]
    by_cases hk : k' = k
    · rw [if_pos hk]
      simp [mapGet]
    · rw [if_neg hk]
      simp only [mapGet]
      rw [if_neg hk]
      exact ih

theorem queueFind_some (l : List QueueEntry) (r : String) (e : QueueEntry)
    (h : queueFind l r = some e) : e ∈ l ∧ e.resource = r := by
  induction l with
  | nil => cases h
  | cons q qs ih =>
    simp only [queueFind] at h
    by_cases hc : q.resource = r
    · rw [if_pos hc] at h
      cases h
      exact ⟨List.mem_cons_self _ _, hc⟩
    · rw [if_neg hc] at h
      obtain ⟨h1, h2⟩ := ih h
      exact ⟨List.mem_cons_of_mem q h1, h2⟩

theorem queueFindIdx_eq_none (l : List QueueEntry) (a r : String) :
    queueFindIdx l a r = none ↔ ∀ q ∈ l, ¬ (q.agentId = a ∧ q.resource = r) := by
  induction l with
  | nil => simp [queueFindIdx]
  | cons q qs ih =>
    simp only [queueFindIdx]
    by_cases hc : q.agentId = a ∧ q.resource = r
    · rw [if_pos hc]
      constructor
      · intro h
        cases h
      · intro h
        exact absurd hc (h q (List.mem_cons_self q qs))
    · rw [if_neg hc]
      constructor
      · intro h q' hq'
        rcases List.mem_cons.mp hq' with rfl | hq''
        · exact hc
        · exact (ih.mp (Option.map_eq_none'.mp h)) q' hq''
      · intro h
        rw [Option.map_eq_none']
        exact ih.mpr (fun q' hq' => h q' (List.mem_cons_of_mem q hq'))

theorem queueFindIdx_append (l1 : List QueueEntry) (e : QueueEntry) (l2 : List QueueEntry)
    (a r : String) (he : e.agentId = a) (hr : e.resource = r)
    (hl1 : ∀ q ∈ l1, ¬ (q.agentId = a ∧ q.resource = r)) :
    queueFindIdx (l1 ++ e :: l2) a r = some l1.length := by
  induction l1 with
  | nil =>
    simp only [List.nil_append, queueFindIdx]
    rw [if_pos ⟨he, hr⟩]
    rfl
  | cons q qs ih =>
    simp only [List.cons_append, queueFindIdx]
    rw [if_neg (hl1 q (List.mem_cons_self q qs))]
    simp only [List.append_eq]
    rw [ih (fun z hz => hl1 z (List.mem_cons_of_mem q hz))]
    rfl

/-! ### Claim theorems -/

/-- C2: `acquireLock` (`try_acquire`) grants a fresh 30 s lock whenever no
live lock exists; against a live lock held by a different caller it grants
exactly when the requested priority strictly exceeds the holder's priority
(replacing the holder's table entry), and returns `null` when the requested
priority is lower or equal — in particular when the priorities are equal. -/
theorem c2_acquire_priority_rules (now : Nat) (s : ArbiterState) (a r : String) (p : Int) :
    (getLockStatus now s r = none →
      acquireLock now s a r p =
        (some (BusinessLock.mk r a now (now + 30000) p),
         ArbiterState.mk (mapSet s.locks r (BusinessLock.mk r a now (now + 30000) p))
           (removeFromQueue s.queue a r))) ∧
    (∀ l, getLockStatus now s r = some l → l.lockedBy ≠ a →
      (l.priority < p →
        acquireLock now s a r p =
          (some (BusinessLock.mk r a now (now + 30000) p),
           ArbiterState.mk (mapSet s.locks r (BusinessLock.mk r a now (now + 30000) p))
             (removeFromQueue s.queue a r))) ∧
      (p ≤ l.priority → acquireLock now s a r p = (none, s)) ∧
      (p = l.priority → acquireLock now s a r p = (none, s))) := by
  constructor
  · intro hnone
    have hdead := (getLockStatus_eq_none now s r).mp hnone
    rw [acquireLock_grant now s a r p
      (fun l hm hlive _ => absurd hlive (not_lt.mpr (hdead l hm)))]
    rfl
  · intro l hstat hne
    obtain ⟨hget, hlive⟩ := (getLockStatus_eq_some now s r l).mp hstat
    refine ⟨?_, ?_, ?_⟩
    · intro hp
      rw [acquireLock_grant now s a r p
        (fun l' hm _ _ => by rw [hget] at hm; cases hm; exact hp)]
      rfl
    · intro hp
      exact acquireLock_deny now s a r p l hget hlive hne hp
    · intro hp
      exact acquireLock_deny now s a r p l hget hlive hne (le_of_eq hp)

/-- Instantiation of the C2 theorem: fresh grant on an empty table;
preemption by strictly higher priority; denial at equal priority. -/
theorem c2_acquire_priority_rules_witness :
    (getLockStatus 0 initState "r" = none ∧
      acquireLock 0 initState "a" "r" 5 =
        (some (BusinessLock.mk "r" "a" 0 30000 5),
         ArbiterState.mk (mapSet initState.locks "r" (BusinessLock.mk "r" "a" 0 30000 5))
           (removeFromQueue initState.queue "a" "r"))) ∧
    (acquireLock 0 (ArbiterState.mk [("r", BusinessLock.mk "r" "b" 0 100 5)] []) "c" "r" 9 =
        (some (BusinessLock.mk "r" "c" 0 30000 9),
         ArbiterState.mk
           (mapSet (ArbiterState.mk [("r", BusinessLock.mk "r" "b" 0 100 5)] []).locks "r"
             (BusinessLock.mk "r" "c" 0 30000 9))
           (removeFromQueue (ArbiterState.mk [("r", BusinessLock.mk "r" "b" 0 100 5)] []).queue
             "c" "r"))) ∧
    (acquireLock 0 (ArbiterState.mk [("r", BusinessLock.mk "r" "b" 0 100 5)] []) "c" "r" 5 =
        (none, ArbiterState.mk [("r", BusinessLock.mk "r" "b" 0 100 5)] [])) :=
  ⟨⟨by decide, (c2_acquire_priority_rules 0 initState "a" "r" 5).1 (by decide)⟩,
   ((c2_acquire_priority_rules 0 (ArbiterState.mk [("r", BusinessLock.mk "r" "b" 0 100 5)] [])
      "c" "r" 9).2 (BusinessLock.mk "r" "b" 0 100 5) (by decide) (by decide)).1 (by decide),
   ((c2_acquire_priority_rules 0 (ArbiterState.mk [("r", BusinessLock.mk "r" "b" 0 100 5)] [])
      "c" "r" 5).2 (BusinessLock.mk "r" "b" 0 100 5) (by decide) (by decide)).2.2 (by decide)⟩

/-- C6: `getLockStatus` (`status`) reports `none` whenever the stored lock's
expiry time is at or before `now`, even though the entry is still present in
the lock table, and any lock it does report is stored and still live. The
source function only reads the table, so it is read-only by construction. -/
theorem c6_status_lazy_expiry (now : Nat) (s : ArbiterState) (r : String) :
    (∀ l, mapGet s.locks r = some l → l.expiresAt ≤ now → getLockStatus now s r = none) ∧
    (∀ l, getLockStatus now s r = some l → mapGet s.locks r = some l ∧ now < l.expiresAt) := by
  constructor
  · intro l h hexp
    refine (getLockStatus_eq_none now s r).mpr ?_
    intro l' h'
    rw [h] at h'
    cases h'
    exact hexp
  · intro l h
    exact (getLockStatus_eq_some now s r l).mp h

/-- Instantiation of the C6 theorem: a lock with `expiresAt = 1000` is
reported as `none` at `now = 1000` although its entry is still stored. -/
theorem c6_status_lazy_expiry_witness :
    mapGet [("r", BusinessLock.mk "r" "a" 0 1000 0)] "r" =
      some (BusinessLock.mk "r" "a" 0 1000 0) ∧
    getLockStatus 1000 (ArbiterState.mk [("r", BusinessLock.mk "r" "a" 0 1000 0)] []) "r" =
      none :=
  ⟨by decide,
   (c6_status_lazy_expiry 1000 (ArbiterState.mk [("r", BusinessLock.mk "r" "a" 0 1000 0)] [])
     "r").1 (BusinessLock.mk "r" "a" 0 1000 0) (by decide) (by decide)⟩

/-- C10: the ownership check of `releaseLock` ignores lease expiry. With an
expired entry still in the table (`getLockStatus` reports `none`), a
non-holder still gets `ConflictException` (and the state is unchanged),
while the recorded holder still gets `released: true`, the entry is deleted,
and the queued next-in-line (if any) is granted the lock. -/
theorem c10_release_ignores_expiry (now : Nat) (s : ArbiterState) (a r : String)
    (l : BusinessLock) (hget : mapGet s.locks r = some l) (hexp : l.expiresAt ≤ now) :
    getLockStatus now s r = none ∧
    (l.lockedBy ≠ a →
      releaseLock now s a r = .error (.conflict ("Lock on " ++ r ++ " is owned by " ++
        l.lockedBy ++ ", not " ++ a)) ∧ step now s (.release a r) = s) ∧
    (l.lockedBy = a →
      ∃ s', releaseLock now s a r = .ok (true, s') ∧
        (queueFind s.queue r = none →
          s' = ArbiterState.mk (mapDelete s.locks r) s.queue) ∧
        (∀ e, queueFind s.queue r = some e →
          mapGet s'.locks r =
            some (BusinessLock.mk r e.agentId now (now + 30000) e.priority))) := by
  refine ⟨?_, ?_, ?_⟩
  · exact (getLockStatus_eq_none now s r).mpr
      (fun l' h' => by rw [hget] at h'; cases h'; exact hexp)
  · intro hne
    refine ⟨releaseLock_conflict now s a r l hget hne, ?_⟩
    show (match releaseLock now s a r with
      | .ok (_, s') => s'
      | .error _ => s) = s
    rw [releaseLock_conflict now s a r l hget hne]
  · intro hown
    cases hq : queueFind s.queue r with
    | none =>
      refine ⟨_, releaseLock_owner_empty now s a r l hget hown hq, fun _ => rfl, ?_⟩
      intro e he
      cases he
    | some e =>
      refine ⟨_, releaseLock_owner_promote now s a r l e hget hown hq, ?_, ?_⟩
      · intro hnone
        cases hnone
      · intro e' he'
        cases he'
        obtain ⟨_, hres⟩ := queueFind_some s.queue r e hq
        have hnone : mapGet (ArbiterState.mk (mapDelete s.locks r) s.queue).locks e.resource
            = none := by
          show mapGet (mapDelete s.locks r) e.resource = none
          rw [hres]
          exact mapGet_mapDelete_self s.locks r
        rw [acquireLock_grant now (ArbiterState.mk (mapDelete s.locks r) s.queue)
          e.agentId e.resource e.priority (fun l' hm => by rw [hnone] at hm; cases hm)]
        show mapGet (mapSet (mapDelete s.locks r) e.resource
          (BusinessLock.mk e.resource e.agentId now (now + 30000) e.priority)) r =
          some (BusinessLock.mk r e.agentId now (now + 30000) e.priority)
        rw [← hres]
        exact mapGet_mapSet_self (mapDelete s.locks e.resource) e.resource _

/-- Instantiation of the C10 theorem: an expired lock held by `"a"` still
causes `ConflictException` for `"b"` and still releases for `"a"`. -/
theorem c10_release_ignores_expiry_witness :
    (releaseLock 10 (ArbiterState.mk [("r", BusinessLock.mk "r" "a" 0 10 0)] []) "b" "r" =
      .error (.conflict ("Lock on " ++ "r" ++ " is owned by " ++ "a" ++ ", not " ++ "b")) ∧
     step 10 (ArbiterState.mk [("r", BusinessLock.mk "r" "a" 0 10 0)] []) (.release "b" "r") =
      ArbiterState.mk [("r", BusinessLock.mk "r" "a" 0 10 0)] []) :=
  ((c10_release_ignores_expiry 10 (ArbiterState.mk [("r", BusinessLock.mk "r" "a" 0 10 0)] [])
    "b" "r" (BusinessLock.mk "r" "a" 0 10 0) (by decide) (by decide)).2.1 (by decide))

/-- C5 counterexample: releasing an unlocked resource does NOT fail with
Conflict/NotHeld — the call succeeds, returning `{released: false}`. -/
theorem c5_counterexample :
    releaseLock 0 initState "a" "r" = .ok (false, initState) := rfl

/-- C5 (amended): releasing while a different caller holds the stored lock
throws `ConflictException` (surfaced, state unchanged); releasing an
unlocked resource returns `{released: false}` with no error and no state
change, rather than a Conflict error. -/
theorem c5_owner_only_release (now : Nat) (s : ArbiterState) (a r : String) :
    (mapGet s.locks r = none → releaseLock now s a r = .ok (false, s)) ∧
    (∀ l, mapGet s.locks r = some l → l.lockedBy ≠ a →
      releaseLock now s a r = .error (.conflict ("Lock on " ++ r ++ " is owned by " ++
        l.lockedBy ++ ", not " ++ a)) ∧ step now s (.release a r) = s) := by
  constructor
  · intro h
    exact releaseLock_no_lock now s a r h
  · intro l hget hne
    refine ⟨releaseLock_conflict now s a r l hget hne, ?_⟩
    show (match releaseLock now s a r with
      | .ok (_, s') => s'
      | .error _ => s) = s
    rw [releaseLock_conflict now s a r l hget hne]

/-- Instantiation of the C5 amended theorem on both branches. -/
theorem c5_owner_only_release_witness :
    (releaseLock 3 initState "a" "r" = .ok (false, initState)) ∧
    (releaseLock 3 (ArbiterState.mk [("r", BusinessLock.mk "r" "b" 0 100 0)] []) "a" "r" =
      .error (.conflict ("Lock on " ++ "r" ++ " is owned by " ++ "b" ++ ", not " ++ "a")) ∧
     step 3 (ArbiterState.mk [("r", BusinessLock.mk "r" "b" 0 100 0)] []) (.release "a" "r") =
      ArbiterState.mk [("r", BusinessLock.mk "r" "b" 0 100 0)] []) :=
  ⟨(c5_owner_only_release 3 initState "a" "r").1 (by decide),
   (c5_owner_only_release 3 (ArbiterState.mk [("r", BusinessLock.mk "r" "b" 0 100 0)] [])
     "a" "r").2 (BusinessLock.mk "r" "b" 0 100 0) (by decide) (by decide)⟩

/-- C3 counterexample: a priority-10 coordinate request against a live
priority-5 lock held by another caller is NOT granted immediately — the code
enqueues it and returns `granted: false`. -/
theorem c3_counterexample :
    getLockStatus 50 (ArbiterState.mk [("r", BusinessLock.mk "r" "a" 0 100 5)] []) "r" =
      some (BusinessLock.mk "r" "a" 0 100 5) ∧
    (requestCoordination 50 (ArbiterState.mk [("r", BusinessLock.mk "r" "a" 0 100 5)] [])
      (CoordinationRequest.mk "b" "r" .exclusive 0 10)).1.granted = false ∧
    (requestCoordination 50 (ArbiterState.mk [("r", BusinessLock.mk "r" "a" 0 100 5)] [])
      (CoordinationRequest.mk "b" "r" .exclusive 0 10)).2.queue =
      [QueueEntry.mk "b" "r" 10 50] := by
  decide

/-- C3 (amended): `requestCoordination` never preempts: whenever a live lock
of a different caller exists, the request is enqueued and denied regardless
of its priority; `try_acquire` (and its preemption rule) is only reached
when no live foreign lock exists. -/
theorem c3_coordinate_never_preempts (now : Nat) (s : ArbiterState)
    (request : CoordinationRequest) (l : BusinessLock)
    (hget : mapGet s.locks request.resource = some l) (hlive : now < l.expiresAt)
    (hne : l.lockedBy ≠ request.agentId) :
    (requestCoordination now s request).1.granted = false ∧
    (requestCoordination now s request).1.lock = none ∧
    (requestCoordination now s request).2 = addToQueue now s request ∧
    (requestCoordination now s request).1.queuePosition =
      some (getQueuePosition (addToQueue now s request) request.agentId request.resource) := by
  rw [requestCoordination_enqueue now s request l hget hlive hne]
  exact ⟨rfl, rfl, rfl, rfl⟩

/-- Instantiation of the C3 amended theorem: priority 10 against a live
priority-5 holder is still enqueued. -/
theorem c3_coordinate_never_preempts_witness :
    (requestCoordination 50 (ArbiterState.mk [("r2", BusinessLock.mk "r2" "a" 0 100 5)] [])
      (CoordinationRequest.mk "b" "r2" .exclusive 0 10)).1.granted = false ∧
    (requestCoordination 50 (ArbiterState.mk [("r2", BusinessLock.mk "r2" "a" 0 100 5)] [])
      (CoordinationRequest.mk "b" "r2" .exclusive 0 10)).1.lock = none ∧
    (requestCoordination 50 (ArbiterState.mk [("r2", BusinessLock.mk "r2" "a" 0 100 5)] [])
      (CoordinationRequest.mk "b" "r2" .exclusive 0 10)).2 =
      addToQueue 50 (ArbiterState.mk [("r2", BusinessLock.mk "r2" "a" 0 100 5)] [])
        (CoordinationRequest.mk "b" "r2" .exclusive 0 10) ∧
    (requestCoordination 50 (ArbiterState.mk [("r2", BusinessLock.mk "r2" "a" 0 100 5)] [])
      (CoordinationRequest.mk "b" "r2" .exclusive 0 10)).1.queuePosition =
      some (getQueuePosition (addToQueue 50
        (ArbiterState.mk [("r2", BusinessLock.mk "r2" "a" 0 100 5)] [])
        (CoordinationRequest.mk "b" "r2" .exclusive 0 10)) "b" "r2") :=
  c3_coordinate_never_preempts 50 (ArbiterState.mk [("r2", BusinessLock.mk "r2" "a" 0 100 5)] [])
    (CoordinationRequest.mk "b" "r2" .exclusive 0 10) (BusinessLock.mk "r2" "a" 0 100 5)
    (by decide) (by decide) (by decide)

/-- C7 counterexample: the first queued request has zero entries ahead of it
in the queue (so the sum of remaining TTLs of entries ahead is 0 ms), yet
the returned estimate is `1 * 5000 = 5000` ms — a per-position constant. -/
theorem c7_counterexample :
    (requestCoordination 100 (ArbiterState.mk [("r", BusinessLock.mk "r" "a" 0 30000 0)] [])
      (CoordinationRequest.mk "b" "r" .write 0 0)).1.estimatedWaitMs = some 5000 ∧
    (requestCoordination 100 (ArbiterState.mk [("r", BusinessLock.mk "r" "a" 0 30000 0)] [])
      (CoordinationRequest.mk "b" "r" .write 0 0)).2.queue = [QueueEntry.mk "b" "r" 0 100] ∧
    (5000 : Nat) ≠ 0 := by
  decide

/-- C7 (amended): on the queued path `estimatedWaitMs` is always the fixed
per-position constant `queuePosition * 5000` ms, with no dependence on any
TTL (queue entries do not even record durations). -/
theorem c7_wait_estimate_is_per_position (now : Nat) (s : ArbiterState)
    (request : CoordinationRequest) (l : BusinessLock)
    (hget : mapGet s.locks request.resource = some l) (hlive : now < l.expiresAt)
    (hne : l.lockedBy ≠ request.agentId) :
    (requestCoordination now s request).1.estimatedWaitMs =
      some (getQueuePosition (addToQueue now s request) request.agentId
        request.resource * 5000) := by
  rw [requestCoordination_enqueue now s request l hget hlive hne]

/-- Instantiation of the C7 amended theorem. -/
theorem c7_wait_estimate_is_per_position_witness :
    (requestCoordination 100 (ArbiterState.mk [("r3", BusinessLock.mk "r3" "a" 0 30000 0)] [])
      (CoordinationRequest.mk "b" "r3" .write 0 0)).1.estimatedWaitMs =
      some (getQueuePosition (addToQueue 100
        (ArbiterState.mk [("r3", BusinessLock.mk "r3" "a" 0 30000 0)] [])
        (CoordinationRequest.mk "b" "r3" .write 0 0)) "b" "r3" * 5000) :=
  c7_wait_estimate_is_per_position 100
    (ArbiterState.mk [("r3", BusinessLock.mk "r3" "a" 0 30000 0)] [])
    (CoordinationRequest.mk "b" "r3" .write 0 0) (BusinessLock.mk "r3" "a" 0 30000 0)
    (by decide) (by decide) (by decide)

/-- C8 counterexample: re-enqueuing `"a"` on `"r"` with priority 9 at time 2
does NOT update the existing entry — the queue keeps the original priority 1
and timestamp 1 (reachable run: lock held by `"h"`, then two coordinate
calls by `"a"`). -/
theorem c8_counterexample :
    (run [(0, .acquire "h" "r" 0),
          (1, .coordinate (CoordinationRequest.mk "a" "r" .write 0 1)),
          (2, .coordinate (CoordinationRequest.mk "a" "r" .write 0 9))]).queue =
      [QueueEntry.mk "a" "r" 1 1] := by
  decide

/-- C8 (amended): re-enqueuing a (caller, resource) pair already queued never
creates a duplicate — it leaves the whole state unchanged, keeping (not
updating) the existing entry's priority and timestamp — and every reachable
queue state has at most one entry per (caller, resource) pair. -/
theorem c8_enqueue_idempotent_no_update :
    (∀ (now : Nat) (s : ArbiterState) (request : CoordinationRequest),
      (∃ q ∈ s.queue, q.agentId = request.agentId ∧ q.resource = request.resource) →
      addToQueue now s request = s) ∧
    (∀ ops : List (Nat × Op), PairsNodup (run ops).queue) := by
  constructor
  · intro now s request hex
    exact addToQueue_queue_of_mem now s request hex
  · intro ops
    exact pairsNodup_runFrom ops initState List.nodup_nil

/-- Instantiation of the C8 amended theorem: a second request by a queued
caller leaves the state unchanged. -/
theorem c8_enqueue_idempotent_no_update_witness :
    addToQueue 7 (ArbiterState.mk [] [QueueEntry.mk "a" "r" 1 1])
      (CoordinationRequest.mk "a" "r" .write 0 9) =
      ArbiterState.mk [] [QueueEntry.mk "a" "r" 1 1] :=
  (c8_enqueue_idempotent_no_update).1 7 (ArbiterState.mk [] [QueueEntry.mk "a" "r" 1 1])
    (CoordinationRequest.mk "a" "r" .write 0 9) (by decide)

/-- C9 counterexample: in a reachable state whose global queue is
`[x on r1, y on r2]`, caller `"y"` is the only queued entry for `"r2"`
(rank 1 among `"r2"` entries), yet `getQueuePosition` returns 2, because the
index is taken in the global queue across all resources. -/
theorem c9_counterexample :
    getQueuePosition (run [(0, .acquire "h1" "r1" 0), (0, .acquire "h2" "r2" 0),
      (1, .coordinate (CoordinationRequest.mk "x" "r1" .write 0 5)),
      (2, .coordinate (CoordinationRequest.mk "y" "r2" .write 0 1))]) "y" "r2" = 2 ∧
    (run [(0, .acquire "h1" "r1" 0), (0, .acquire "h2" "r2" 0),
      (1, .coordinate (CoordinationRequest.mk "x" "r1" .write 0 5)),
      (2, .coordinate (CoordinationRequest.mk "y" "r2" .write 0 1))]).queue.filter
      (fun q => q.resource == "r2") = [QueueEntry.mk "y" "r2" 1 2] := by
  decide

/-- C1: along every sequence of `requestCoordination`, `acquireLock` and
`releaseLock` operations from the fresh service, the lock table holds at
most one entry per resource (its keys never repeat), so two table entries
for the same resource always record the same holder: no two distinct
callers are simultaneously the recorded holder of a lock on one resource. -/
theorem c1_single_holder_invariant (ops : List (Nat × Op)) :
    ((run ops).locks.map Prod.fst).Nodup ∧
    ∀ p ∈ (run ops).locks, ∀ q ∈ (run ops).locks, p.1 = q.1 →
      p.2.lockedBy = q.2.lockedBy := by
  have h : LocksNodup (run ops) := locksNodup_runFrom ops initState List.nodup_nil
  refine ⟨h, ?_⟩
  intro p hp q hq hfst
  exact congrArg (fun x => x.2.lockedBy) (assoc_nodup_unique h hp hq hfst)

/-- Instantiation of the C1 theorem after one acquire. -/
theorem c1_single_holder_invariant_witness :
    ((run [(0, .acquire "a" "r" 1)]).locks.map Prod.fst).Nodup ∧
    ("r", BusinessLock.mk "r" "a" 0 30000 1) ∈ (run [(0, .acquire "a" "r" 1)]).locks ∧
    (("r", BusinessLock.mk "r" "a" 0 30000 1)).2.lockedBy =
      (("r", BusinessLock.mk "r" "a" 0 30000 1)).2.lockedBy :=
  ⟨(c1_single_holder_invariant [(0, .acquire "a" "r" 1)]).1,
   by decide,
   (c1_single_holder_invariant [(0, .acquire "a" "r" 1)]).2
     ("r", BusinessLock.mk "r" "a" 0 30000 1) (by decide)
     ("r", BusinessLock.mk "r" "a" 0 30000 1) (by decide) rfl⟩

instance : DecidableRel entryBefore := fun a b =>
  inferInstanceAs (Decidable (b.priority < a.priority ∨
    (a.priority = b.priority ∧ a.requestedAt ≤ b.requestedAt)))

instance (l : List QueueEntry) : Decidable (PairsNodup l) := by
  unfold PairsNodup
  infer_instance

/-- Concrete C4 scenario prefix: resource `"r"` held by `"h"`, then three
equal-priority coordinate requests arriving in order A, B, C. -/
def c4ops : List (Nat × Op) :=
  [(0, .acquire "h" "r" 0),
   (1, .coordinate (CoordinationRequest.mk "A" "r" .write 0 1)),
   (2, .coordinate (CoordinationRequest.mk "B" "r" .write 0 1)),
   (3, .coordinate (CoordinationRequest.mk "C" "r" .write 0 1))]

/-- C4: (i) along chronological operation sequences every reachable queue is
priority-then-FIFO ordered and holds at most one entry per (caller,
resource); (ii) in any state whose queue is so ordered, a successful owner
release deletes the lock-table entry and, when the queue holds entries for
the resource, promotes exactly the first of them — which has maximal
priority among them and, among those of maximal priority, the earliest
request timestamp — removing it from the queue and granting it the lock in
the same atomic step; (iii) three equal-priority entries queued A, B, C are
promoted in order A, B, C across successive releases. -/
theorem c4_release_promotes_in_order :
    (∀ ops : List (Nat × Op), Chrono 0 ops →
      List.Pairwise entryBefore (run ops).queue ∧ PairsNodup (run ops).queue) ∧
    (∀ (now : Nat) (s : ArbiterState) (a r : String) (l : BusinessLock),
      List.Pairwise entryBefore s.queue → PairsNodup s.queue →
      mapGet s.locks r = some l → l.lockedBy = a →
      ∃ s', releaseLock now s a r = .ok (true, s') ∧
        (queueFind s.queue r = none → s' = ArbiterState.mk (mapDelete s.locks r) s.queue) ∧
        (∀ e, queueFind s.queue r = some e →
          e ∈ s.queue ∧ e.resource = r ∧
          (∀ q ∈ s.queue, q.resource = r → q.priority ≤ e.priority ∧
            (q.priority = e.priority → e.requestedAt ≤ q.requestedAt)) ∧
          mapGet s'.locks r =
            some (BusinessLock.mk r e.agentId now (now + 30000) e.priority) ∧
          s'.queue = removeFromQueue s.queue e.agentId e.resource ∧
          e ∉ s'.queue)) ∧
    ((mapGet (run (c4ops ++ [(4, .release "h" "r")])).locks "r").map
        (fun lk => lk.lockedBy) = some "A" ∧
     (mapGet (run (c4ops ++ [(4, .release "h" "r"), (5, .release "A" "r")])).locks "r").map
        (fun lk => lk.lockedBy) = some "B" ∧
     (mapGet (run (c4ops ++ [(4, .release "h" "r"), (5, .release "A" "r"),
        (6, .release "B" "r")])).locks "r").map (fun lk => lk.lockedBy) = some "C") := by
  refine ⟨?_, ?_, ?_⟩
  · intro ops hc
    obtain ⟨u, h⟩ := qInv_run ops hc
    exact ⟨h.1, h.2.2⟩
  · intro now s a r l hord hnd hget hown
    cases hq : queueFind s.queue r with
    | none =>
      exact ⟨_, releaseLock_owner_empty now s a r l hget hown hq, fun _ => rfl,
        fun e he => absurd he (by simp)⟩
    | some e =>
      obtain ⟨hmem, hres, hall⟩ := queueFind_first s.queue r hord e hq
      have hnone : mapGet (mapDelete s.locks r) e.resource = none := by
        rw [hres]
        exact mapGet_mapDelete_self s.locks r
      have hgrant : ∀ l', mapGet (ArbiterState.mk (mapDelete s.locks r) s.queue).locks
          e.resource = some l' → now < l'.expiresAt → l'.lockedBy ≠ e.agentId →
          l'.priority < e.priority := by
        intro l' hm
        rw [show (ArbiterState.mk (mapDelete s.locks r) s.queue).locks =
          mapDelete s.locks r from rfl] at hm
        rw [hnone] at hm
        cases hm
      have hacq := acquireLock_grant now (ArbiterState.mk (mapDelete s.locks r) s.queue)
        e.agentId e.resource e.priority hgrant
      refine ⟨_, releaseLock_owner_promote now s a r l e hget hown hq,
        fun hnone' => absurd hnone' (by simp), ?_⟩
      intro e' he'
      cases he'
      refine ⟨hmem, hres, ?_, ?_, ?_, ?_⟩
      · intro q hq' hqr
        rcases hall q hq' hqr with rfl | hb
        · exact ⟨le_rfl, fun _ => le_rfl⟩
        · rcases hb with h1 | h2
          · exact ⟨le_of_lt h1, fun habs => absurd (habs ▸ h1) (lt_irrefl _)⟩
          · exact ⟨le_of_eq h2.1.symm, fun _ => h2.2⟩
      · rw [hacq]
        show mapGet (mapSet (mapDelete s.locks r) e.resource
          (BusinessLock.mk e.resource e.agentId now (now + 30000) e.priority)) r =
          some (BusinessLock.mk r e.agentId now (now + 30000) e.priority)
        rw [← hres]
        exact mapGet_mapSet_self (mapDelete s.locks e.resource) e.resource _
      · rw [hacq]
        rfl
      · rw [hacq]
        show e ∉ removeFromQueue s.queue e.agentId e.resource
        exact not_mem_removeFromQueue s.queue e.agentId e.resource e hnd hmem rfl rfl
  · refine ⟨?_, ?_, ?_⟩ <;> decide

/-- Instantiation of the C4 theorem: ordered reachable scenario queue, and a
release that promotes the first of two equal-priority queued entries. -/
theorem c4_release_promotes_in_order_witness :
    (List.Pairwise entryBefore (run c4ops).queue ∧ PairsNodup (run c4ops).queue) ∧
    (∃ s', releaseLock 10 (ArbiterState.mk [("r", BusinessLock.mk "r" "a" 0 30000 3)]
        [QueueEntry.mk "A" "r" 1 1, QueueEntry.mk "B" "r" 1 2]) "a" "r" = .ok (true, s') ∧
      (queueFind (ArbiterState.mk [("r", BusinessLock.mk "r" "a" 0 30000 3)]
          [QueueEntry.mk "A" "r" 1 1, QueueEntry.mk "B" "r" 1 2]).queue "r" = none →
        s' = ArbiterState.mk
          (mapDelete (ArbiterState.mk [("r", BusinessLock.mk "r" "a" 0 30000 3)]
            [QueueEntry.mk "A" "r" 1 1, QueueEntry.mk "B" "r" 1 2]).locks "r")
          (ArbiterState.mk [("r", BusinessLock.mk "r" "a" 0 30000 3)]
            [QueueEntry.mk "A" "r" 1 1, QueueEntry.mk "B" "r" 1 2]).queue) ∧
      (∀ e, queueFind (ArbiterState.mk [("r", BusinessLock.mk "r" "a" 0 30000 3)]
          [QueueEntry.mk "A" "r" 1 1, QueueEntry.mk "B" "r" 1 2]).queue "r" = some e →
        e ∈ (ArbiterState.mk [("r", BusinessLock.mk "r" "a" 0 30000 3)]
          [QueueEntry.mk "A" "r" 1 1, QueueEntry.mk "B" "r" 1 2]).queue ∧ e.resource = "r" ∧
        (∀ q ∈ (ArbiterState.mk [("r", BusinessLock.mk "r" "a" 0 30000 3)]
            [QueueEntry.mk "A" "r" 1 1, QueueEntry.mk "B" "r" 1 2]).queue, q.resource = "r" →
          q.priority ≤ e.priority ∧
          (q.priority = e.priority → e.requestedAt ≤ q.requestedAt)) ∧
        mapGet s'.locks "r" =
          some (BusinessLock.mk "r" e.agentId 10 (10 + 30000) e.priority) ∧
        s'.queue = removeFromQueue (ArbiterState.mk
          [("r", BusinessLock.mk "r" "a" 0 30000 3)]
          [QueueEntry.mk "A" "r" 1 1, QueueEntry.mk "B" "r" 1 2]).queue e.agentId e.resource ∧
        e ∉ s'.queue)) :=
  ⟨(c4_release_promotes_in_order).1 c4ops (by simp [c4ops, Chrono]),
   (c4_release_promotes_in_order).2.1 10
     (ArbiterState.mk [("r", BusinessLock.mk "r" "a" 0 30000 3)]
       [QueueEntry.mk "A" "r" 1 1, QueueEntry.mk "B" "r" 1 2]) "a" "r"
     (BusinessLock.mk "r" "a" 0 30000 3) (by decide) (by decide) (by decide) (by decide)⟩

/-- C9 (amended): `getQueuePosition` returns the 1-indexed position of the
caller's entry in the single GLOBAL queue — counting the entries of all
resources that precede it — and 0 when the caller is not queued for that
resource; entries queued for other resources therefore do shift the result. -/
theorem c9_position_is_global (s : ArbiterState) (a r : String) :
    (getQueuePosition s a r = 0 ↔ ∀ q ∈ s.queue, ¬ (q.agentId = a ∧ q.resource = r)) ∧
    (∀ l1 e l2, s.queue = l1 ++ e :: l2 → e.agentId = a → e.resource = r →
      (∀ q ∈ l1, ¬ (q.agentId = a ∧ q.resource = r)) →
      getQueuePosition s a r = l1.length + 1) := by
  constructor
  · unfold getQueuePosition
    cases hidx : queueFindIdx s.queue a r with
    | none =>
      exact iff_of_true rfl ((queueFindIdx_eq_none s.queue a r).mp hidx)
    | some i =>
      refine iff_of_false (fun h => Nat.succ_ne_zero i h) (fun h => ?_)
      rw [(queueFindIdx_eq_none s.queue a r).mpr h] at hidx
      cases hidx
  · intro l1 e l2 hqe he hr hl1
    unfold getQueuePosition
    rw [hqe, queueFindIdx_append l1 e l2 a r he hr hl1]

/-- Instantiation of the C9 amended theorem: one foreign-resource entry ahead
shifts the position to 2. -/
theorem c9_position_is_global_witness :
    getQueuePosition (ArbiterState.mk []
      [QueueEntry.mk "x" "r1" 5 1, QueueEntry.mk "y" "r2" 1 2]) "y" "r2" =
      [QueueEntry.mk "x" "r1" 5 1].length + 1 :=
  (c9_position_is_global (ArbiterState.mk []
      [QueueEntry.mk "x" "r1" 5 1, QueueEntry.mk "y" "r2" 1 2]) "y" "r2").2
    [QueueEntry.mk "x" "r1" 5 1] (QueueEntry.mk "y" "r2" 1 2) [] rfl rfl rfl (by decide)

end Arbiter
